import Mathlib

/-!
Verification development for the `rhana` RHEED periodicity-analysis library.

The Python sources (`rhana/spectrum.py`, `rhana/pattern.py`,
`rhana/phaser/distance.py`) are shallowly embedded below: numpy float
arithmetic is modelled exactly over `ℚ`, numpy arrays become `List ℚ`
(2-D pixel arrays become index functions together with explicit bounds),
and external collaborators (scipy `curve_fit`, `gaussian_filter1d`,
`interp1d`, sklearn `DBSCAN`) are parameters of the embedding, following
the collaborator contracts of the design document.  Fallible code paths
(`np.linalg.inv` on a singular system, the caught `curve_fit` failure)
are modelled with `Except`/`Option`.
-/

set_option linter.unusedVariables false

/-! ## numpy helpers -/

/-- Index of the first minimum of `x :: xs`, numpy `argmin` semantics
(first occurrence wins); accumulator holds current best index/value. -/
def argminAux : List ℚ → ℕ → ℕ → ℚ → ℕ
  | [], _, bi, _ => bi
  | x :: xs, i, bi, bv =>
      if x < bv then argminAux xs (i + 1) i x else argminAux xs (i + 1) bi bv

/-- numpy `argmin` over a rational list; `0` on the empty list (numpy raises
there; the embedding never consults that value on an empty list). -/
def argminList : List ℚ → ℕ
  | [] => 0
  | x :: xs => argminAux xs 1 0 x

/-- numpy `min` of a list (meaningful for nonempty lists). -/
def minList (l : List ℚ) : ℚ := l.foldl min (l.headD 0)

/-- numpy `max` of a list (meaningful for nonempty lists). -/
def maxList (l : List ℚ) : ℚ := l.foldl max (l.headD 0)

/-- numpy `min` of a list of naturals. -/
def minNatList (l : List ℕ) : ℕ := l.foldl min (l.headD 0)

/-- Python `int(...)` applied to a real value: truncation toward zero. -/
def qtrunc (x : ℚ) : ℤ := if 0 ≤ x then ⌊x⌋ else -⌊-x⌋

/-- numpy slice-bound semantics on an axis of length `len`: a negative
index counts from the end, then the result is clamped into `[0, len]`. -/
def npClampIdx (len : ℕ) (i : ℤ) : ℕ :=
  let j : ℤ := if i < 0 then i + len else i
  if j < 0 then 0 else min j.toNat len

/-! ## `rhana.spectrum`: peak-distance machinery -/

/-- `create_grid(start, end, center, dist)` from `spectrum.py`:
`np.arange(ln+1, rn+1) * dist` with `rn = (end-center)//dist`,
`ln = (start-center)//dist` (Python floor division). -/
def create_grid (start e center dist : ℚ) : List ℚ :=
  let rn : ℤ := ⌊(e - center) / dist⌋
  let ln : ℤ := ⌊(start - center) / dist⌋
  (List.range (rn + 1 - (ln + 1)).toNat).map (fun k => ((ln + 1 + k : ℤ) : ℚ) * dist)

/-- `get_center_peak_idxs`: all peak indices strictly within `tolerant`
of the center location. -/
def get_center_peak_idxs (peaks : List ℚ) (spec_center_loc tolerant : ℚ) : List ℕ :=
  (List.range peaks.length).filter
    (fun i => decide (|peaks.getD i 0 - spec_center_loc| < tolerant))

/-- `get_center_peak_idx`: argmin of the absolute distances, then the
source compares the SIGNED difference `peaks[ci] - spec_center_loc`
against `tolerant` (no `abs` — faithfully reproduced); `-1` when the
test fails. -/
def get_center_peak_idx (peaks : List ℚ) (spec_center_loc tolerant : ℚ) : ℤ :=
  let ci := argminList (peaks.map (fun p => |p - spec_center_loc|))
  if peaks.getD ci 0 - spec_center_loc < tolerant then (ci : ℤ) else -1

/-- `get_all_nbr_idxs(center_i, idxs)` with `idxs = range n`: alternating
near-to-far neighbour order `ci-1, ci+1, ci-2, ci+2, …`, each side
stopping at its end. -/
def get_all_nbr_idxs (ci n : ℕ) : List ℕ :=
  (List.range (max ci (n - 1 - ci))).flatMap (fun l =>
    let level := l + 1
    (if level ≤ ci then [ci - level] else []) ++
    (if ci + level ≤ n - 1 then [ci + level] else []))

/-- `PeakAnalysisResult` (spectrum.py): one peak family.  `avg_dist` and
`avg_err` are numpy floats that can be non-finite (`nan` from a `0/0`);
non-finite is modelled as `⊤`. -/
structure PeakAnalysisResult where
  peaks_family : List ℕ
  avg_dist : WithTop ℚ
  avg_err : WithTop ℚ
deriving DecidableEq

/-- Parameters of `analyze_peaks_distance_cent(peaks, center_nbr_dists,
center_peak, center_peak_i, grid_min_w, grid_max_w, tolerant,
abs_tolerant, allow_discontinue)`; `n = len(peaks)`, `cnd` is the
center-row distance vector. -/
structure AnaParams where
  n : ℕ
  cnd : List ℚ
  cp : ℚ
  ci : ℕ
  gmin : ℚ
  gmax : ℚ
  tolerant : ℚ
  abs_tolerant : ℚ
  allow_discontinue : ℕ
deriving DecidableEq

/-- `dist = abs(center_nbr_dists[j])` for candidate `j`. -/
def ana_dist (P : AnaParams) (j : ℕ) : ℚ := |P.cnd.getD j 0|

/-- The candidate grid for neighbour `j`. -/
def ana_grid (P : AnaParams) (j : ℕ) : List ℚ :=
  create_grid P.gmin P.gmax P.cp (ana_dist P j)

/-- `close = nbr_grid_dm.argmin(axis=1)`: per peak, the index of the
nearest grid line. -/
def ana_close (P : AnaParams) (j : ℕ) : List ℕ :=
  (List.range P.n).map
    (fun i => argminList ((ana_grid P j).map (fun g => |P.cnd.getD i 0 - g|)))

/-- `idx = np.where(select)[0]`: peaks whose residual to their nearest
grid line is `< min(tolerant*dist, abs_tolerant)`. -/
def ana_idx (P : AnaParams) (j : ℕ) : List ℕ :=
  (List.range P.n).filter (fun i =>
    decide (|P.cnd.getD i 0 - (ana_grid P j).getD ((ana_close P j).getD i 0) 0| <
      min (P.tolerant * ana_dist P j) P.abs_tolerant))

/-- `gidx = close[select]`: matched grid indices of the selected peaks. -/
def ana_gidx (P : AnaParams) (j : ℕ) : List ℕ :=
  (ana_idx P j).map (fun i => (ana_close P j).getD i 0)

/-- `uni_gidx = np.unique(gidx)` (sorted, duplicate-free). -/
def ana_uni_gidx (P : AnaParams) (j : ℕ) : List ℕ :=
  (ana_gidx P j).toFinset.sort (· ≤ ·)

/-- `allowed = np.all(np.diff(uni_gidx) <= allow_discontinue+1)`. -/
def ana_allowed (P : AnaParams) (j : ℕ) : Bool :=
  (List.zipWith (fun x y => y - x) (ana_uni_gidx P j) (ana_uni_gidx P j).tail).all
    (fun d => decide (d ≤ P.allow_discontinue + 1))

/-- `ln + 1` of the candidate grid: the grid entry at index `g` is the
multiple `ln + 1 + g` of `dist`. -/
def ana_ln1 (P : AnaParams) (j : ℕ) : ℤ := ⌊(P.gmin - P.cp) / ana_dist P j⌋ + 1

/-- `selected_multi = grid[gidx] / dist` (per selected peak). -/
def ana_selmulti (P : AnaParams) (j : ℕ) : List ℚ :=
  (ana_idx P j).map
    (fun i => (ana_grid P j).getD ((ana_close P j).getD i 0) 0 / ana_dist P j)

/-- The selected peaks paired with their multiples, restricted to the
nonzero multiples (`nonzero_multi`). -/
def ana_nz (P : AnaParams) (j : ℕ) : List (ℕ × ℚ) :=
  ((ana_idx P j).zip (ana_selmulti P j)).filter (fun pr => decide (pr.2 ≠ 0))

/-- `avg_dist` numerator-over-count as exact rational (only consulted
when the count is nonzero). -/
def ana_avg_q (P : AnaParams) (j : ℕ) : ℚ :=
  ((ana_nz P j).map (fun pr => P.cnd.getD pr.1 0 / pr.2)).sum / ((ana_nz P j).length : ℚ)

/-- `avg_dist`; `0/0` in numpy yields `nan`, modelled as `⊤`. -/
def ana_avg (P : AnaParams) (j : ℕ) : WithTop ℚ :=
  if (ana_nz P j).length = 0 then ⊤ else ((ana_avg_q P j : ℚ) : WithTop ℚ)

/-- `avg_err`; `0/0` modelled as `⊤`. -/
def ana_avg_err (P : AnaParams) (j : ℕ) : WithTop ℚ :=
  if (ana_nz P j).length = 0 then ⊤
  else ((((ana_nz P j).map (fun pr => |P.cnd.getD pr.1 0 / pr.2 - ana_avg_q P j|)).sum /
    ((ana_nz P j).length : ℚ) : ℚ) : WithTop ℚ)

/-- The candidate family record for neighbour `j`, together with the
`uni_gidx` and `ln+1` data that the acceptance test inspects. -/
structure PeakFamilyAux where
  res : PeakAnalysisResult
  uni_gidx : List ℕ
  ln1 : ℤ
deriving DecidableEq

/-- The family that candidate `j` would contribute. -/
def ana_aux (P : AnaParams) (j : ℕ) : PeakFamilyAux :=
  ⟨⟨ana_idx P j, ana_avg P j, ana_avg_err P j⟩, ana_uni_gidx P j, ana_ln1 P j⟩

/-- One iteration of the hypothesis loop of `analyze_peaks_distance_cent`:
skip the center, skip processed pairs `mask[ci, j]`, skip candidates
closer than `abs_tolerant` to the center; otherwise accept when
`allowed and len(uni_gidx) > 1`, marking all selected pairs processed. -/
def anaStep (P : AnaParams) (st : Finset (ℕ × ℕ) × List PeakFamilyAux) (j : ℕ) :
    Finset (ℕ × ℕ) × List PeakFamilyAux :=
  if P.ci = j then st
  else if (P.ci, j) ∈ st.1 then st
  else if ana_dist P j ≤ P.abs_tolerant then st
  else if ana_allowed P j = true ∧ 1 < (ana_uni_gidx P j).length then
    (st.1 ∪ (ana_idx P j).toFinset ×ˢ (ana_idx P j).toFinset, st.2 ++ [ana_aux P j])
  else st

/-- The hypothesis loop with the `uni_gidx` evidence retained. -/
def analyze_aux (P : AnaParams) : List PeakFamilyAux :=
  ((get_all_nbr_idxs P.ci P.n).foldl (anaStep P) (∅, [])).2

/-- `analyze_peaks_distance_cent` (module-level function of
`spectrum.py`): the list of accepted `PeakAnalysisResult`s. -/
def analyze_peaks_distance_cent (P : AnaParams) : List PeakAnalysisResult :=
  (analyze_aux P).map PeakFamilyAux.res

/-- Alias for `analyze_peaks_distance_cent` usable inside the `Spectrum`
namespace (where the bare name would resolve to the method). -/
def ana_run (P : AnaParams) : List PeakAnalysisResult :=
  analyze_peaks_distance_cent P

/-! ## `rhana.spectrum`: the distance matrices -/

/-- `get_peaks_distance(..., full=True, polar)` as an index function:
the absolute pairwise distance of the peak positions, with the lower
triangle (diagonal included, `np.tril_indices_from` with `k=0`)
negated when `polar`. -/
def get_peaks_distance_full (pw : List ℚ) (polar : Bool) (i j : ℕ) : ℚ :=
  let d := |pw.getD i 0 - pw.getD j 0|
  if polar ∧ j ≤ i then -d else d

/-- The matrix consumed by `Spectrum.analyze_peaks_distance_cent`
(spectrum.py lines 275-276): `get_peaks_distance(full=True, polar=True)`
followed by a SECOND lower-triangle negation. -/
def spectrum_consumed_interdist (pw : List ℚ) (i j : ℕ) : ℚ :=
  let m := get_peaks_distance_full pw true i j
  if j ≤ i then -m else m

/-- The matrix consumed by `RheedMask.analyze_peaks_distance_cent`
(pattern.py lines 948-953): a single polar distance matrix of the
flattened peak positions. -/
def flatten_consumed_interdist (allpeaks : List ℚ) (i j : ℕ) : ℚ :=
  get_peaks_distance_full allpeaks true i j

/-! ## `rhana.spectrum.Spectrum` -/

/-- `Spectrum`: intensity values `spec` over coordinates `ws`. -/
structure Spectrum where
  spec : List ℚ
  ws : List ℚ
deriving DecidableEq

/-- `Spectrum._update_spectrum`: state-passing model of the
in-place/copy-returning convention.  The result is
`(receiver after the call, returned Spectrum)`: with `inplace` the
receiver is overwritten and returned, otherwise the receiver is left
alone and a fresh `Spectrum` is returned. -/
def Spectrum.update_spectrum (s : Spectrum) (spec ws : List ℚ) (inplace : Bool) :
    Spectrum × Spectrum :=
  if inplace then (⟨spec, ws⟩, ⟨spec, ws⟩) else (s, ⟨spec, ws⟩)

/-- `Spectrum.normalization`: min-max scaling with the `+1e-5`
denominator guard (`1e-5` modelled as the exact rational `1/100000`). -/
def Spectrum.normalization (s : Spectrum) (inplace : Bool) : Spectrum × Spectrum :=
  let m := minList s.spec
  let M := maxList s.spec
  let nspec := s.spec.map (fun x => (x - m) / (M - m + 1 / 100000))
  s.update_spectrum nspec s.ws inplace

/-- `Spectrum.smooth`: delegates the Gaussian kernel to the external
`gaussian_filter1d`.  The source accepts `inplace` but does NOT forward
it to `_update_spectrum` (faithfully reproduced: the call always passes
the default `inplace=True`). -/
def Spectrum.smooth (s : Spectrum) (gaussian_filter1d : List ℚ → List ℚ)
    (inplace : Bool) : Spectrum × Spectrum :=
  s.update_spectrum (gaussian_filter1d s.spec) s.ws true

/-- `Spectrum.clip`: `np.clip` on the intensities. -/
def Spectrum.clip (s : Spectrum) (clip_min clip_max : ℚ) (inplace : Bool) :
    Spectrum × Spectrum :=
  s.update_spectrum (s.spec.map (fun x => min (max x clip_min) clip_max)) s.ws inplace

/-- `Spectrum.remove_background`: least-squares linear baseline through
the first and last `n` samples; `np.linalg.inv` on the 2×2 normal
matrix raises `LinAlgError` exactly when the determinant vanishes,
modelled as `Except.error`. -/
def Spectrum.remove_background (s : Spectrum) (n : ℕ) (inplace : Bool) :
    Except Unit (Spectrum × Spectrum) :=
  let X := if 1 < n then s.ws.take n ++ s.ws.drop (s.ws.length - n)
           else [s.ws.headD 0, s.ws.getD (s.ws.length - 1) 0]
  let Y := if 1 < n then s.spec.take n ++ s.spec.drop (s.spec.length - n)
           else [s.spec.headD 0, s.spec.getD (s.spec.length - 1) 0]
  let sxx := (X.map (fun x => x * x)).sum
  let sx := X.sum
  let m : ℚ := X.length
  let sxy := ((X.zip Y).map (fun p => p.1 * p.2)).sum
  let sy := Y.sum
  let det := sxx * m - sx * sx
  if det = 0 then .error ()
  else
    let a := (m * sxy - sx * sy) / det
    let b := (sxx * sy - sx * sxy) / det
    .ok (s.update_spectrum (List.zipWith (fun w v => v - (a * w + b)) s.ws s.spec) s.ws inplace)

/-- Select the entries of `l` where the parallel Boolean mask holds. -/
def selectMask (l : List ℚ) (mask : List Bool) : List ℚ :=
  ((l.zip mask).filter (fun p => p.2)).map (fun p => p.1)

/-- `Spectrum.filling_flat`: replace truncated samples by the external
quadratic interpolation `interp1d` (passed in as `interp`, applied to
the non-truncated coordinates/values and evaluated on all of `ws`);
no-op unless some sample is truncated and at least 3 are not. -/
def Spectrum.filling_flat (s : Spectrum) (interp : List ℚ → List ℚ → List ℚ → List ℚ)
    (trunc : ℚ) (inplace : Bool) : Spectrum × Spectrum :=
  let smask := s.spec.map (fun v => decide (v ≤ trunc))
  let cnt := smask.count true
  let spec := if cnt < s.spec.length ∧ 2 < cnt then
      interp (selectMask s.ws smask) (selectMask s.spec smask) s.ws
    else s.spec
  if inplace then (⟨spec, s.ws⟩, ⟨spec, s.ws⟩) else (s, ⟨spec, s.ws⟩)

/-- `int(len(self.ws)//2)`: the target center location of
`Spectrum.analyze_peaks_distance_cent`. -/
def Spectrum.center_loc (s : Spectrum) : ℚ := ((s.ws.length / 2 : ℕ) : ℚ)

/-- `Spectrum.analyze_peaks_distance_cent` (`peaks` is the fitted peak
index list stored on the object): builds the doubly-negated distance
matrix, selects the center via `get_center_peak_idx`, and runs the
family search; empty result when no center is reported. -/
def Spectrum.analyze_peaks_distance_cent (s : Spectrum) (peaks : List ℕ)
    (tolerant abs_tolerant : ℚ) (allow_discontinue : ℕ) : List PeakAnalysisResult :=
  let grid_max_w := maxList s.ws
  let grid_min_w : ℚ := 0
  let pw := peaks.map (fun p => s.ws.getD p 0)
  let ciZ := get_center_peak_idx (peaks.map (fun p => (p : ℚ))) s.center_loc abs_tolerant
  if ciZ = -1 then []
  else
    let ci := ciZ.toNat
    let cp : ℚ := ((peaks.getD ci 0 : ℕ) : ℚ)
    let cnd := (List.range peaks.length).map (fun j => spectrum_consumed_interdist pw ci j)
    ana_run
      ⟨peaks.length, cnd, cp, ci, grid_min_w, grid_max_w, tolerant, abs_tolerant,
        allow_discontinue⟩

/-! ## `Spectrum.get_peaks_group` (Peak Group Resolver) -/

/-- One family candidate as consumed by the resolver: member indices
paired with `avg_dist`. -/
abbrev FamPair := List ℕ × WithTop ℚ

/-- Stable insertion into a list sorted ascending by `avg_dist`
(ties keep the incoming element after existing ones, matching Python's
stable `sorted`). -/
def insert_fam (x : FamPair) : List FamPair → List FamPair
  | [] => [x]
  | y :: ys => if x.2 < y.2 then x :: y :: ys else y :: insert_fam x ys

/-- Python `sorted(allpeaks_unfilterd, key=lambda x: x[1])`. -/
def sort_fams (l : List FamPair) : List FamPair :=
  l.foldl (fun acc x => insert_fam x acc) []

/-- One iteration of the greedy acceptance loop of `get_peaks_group`:
accept a finite-distance family iff (`exclusive` off or) none of its
members is already claimed; the claimed set is tracked as a `Finset`. -/
def gpg_step (exclusive : Bool) (st : Finset ℕ × List FamPair) (fa : FamPair) :
    Finset ℕ × List FamPair :=
  if fa.2 < ⊤ then
    if exclusive = false ∨ ∀ p ∈ fa.1, p ∉ st.1 then
      (st.1 ∪ fa.1.toFinset, st.2 ++ [fa])
    else st
  else st

/-- The accepted groups of `Spectrum.get_peaks_group`, in acceptance
order. -/
def gpg_accepted (ana_res : List PeakAnalysisResult) (exclusive : Bool) : List FamPair :=
  ((sort_fams (ana_res.map (fun r => (r.peaks_family, r.avg_dist)))).foldl
    (gpg_step exclusive) (∅, [])).2

/-- The claimed-peak set after the greedy loop. -/
def gpg_selected (ana_res : List PeakAnalysisResult) (exclusive : Bool) : Finset ℕ :=
  ((sort_fams (ana_res.map (fun r => (r.peaks_family, r.avg_dist)))).foldl
    (gpg_step exclusive) (∅, [])).1

/-- The trailing leftover pseudo-group: every unclaimed peak index. -/
def gpg_leftover (ana_res : List PeakAnalysisResult) (npeaks : ℕ) (exclusive : Bool) :
    List ℕ :=
  (List.range npeaks).filter (fun i => decide (i ∉ gpg_selected ana_res exclusive))

/-- `Spectrum.get_peaks_group(ana_res, peaks, exclusive)` with
`npeaks = len(peaks)`: greedily accepted families (ascending
`avg_dist`, infinite/undefined distances dropped) followed by the
leftover pseudo-group with sentinel distance `-1`. -/
def Spectrum.get_peaks_group (ana_res : List PeakAnalysisResult) (npeaks : ℕ)
    (exclusive : Bool) : List FamPair :=
  gpg_accepted ana_res exclusive ++
    [(gpg_leftover ana_res npeaks exclusive, ((-1 : ℚ) : WithTop ℚ))]

/-! ## `RheedMask.clean_collapse` -/

/-- Warnings surfaced by `clean_collapse`. -/
inductive CCWarn where
  | linalg : CCWarn
deriving DecidableEq

/-- The per-spectrum body of `RheedMask.clean_collapse`: background
removal guarded by `try/except np.linalg.LinAlgError` (a caught error
produces a warning and leaves the spectrum as is), then `normalize`,
then `smooth` (Gaussian kernel passed in as `g`). -/
def clean_collapse_one (g : List ℚ → List ℚ) (smooth rm_bg scale : Bool)
    (cs : Spectrum) : Spectrum × List CCWarn :=
  let step1 : Spectrum × List CCWarn :=
    if rm_bg then
      match cs.remove_background 2 true with
      | .ok pr => (pr.1, [])
      | .error _ => (cs, [CCWarn.linalg])
    else (cs, [])
  let cs2 := if scale then (step1.1.normalization true).1 else step1.1
  let cs3 := if smooth then (Spectrum.smooth cs2 g true).1 else cs2
  (cs3, step1.2)

/-- `RheedMask.clean_collapse` over the stored collapse spectra,
accumulating the surfaced warnings. -/
def clean_collapse (g : List ℚ → List ℚ) (smooth rm_bg scale : Bool)
    (collapses : List Spectrum) : List Spectrum × List CCWarn :=
  collapses.foldl
    (fun acc cs =>
      let r := clean_collapse_one g smooth rm_bg scale cs
      (acc.1 ++ [r.1], acc.2 ++ r.2))
    ([], [])

/-! ## `rhana.phaser.distance.DBSCANDistanceCluster` -/

/-- `np.unique` on integer labels (sorted ascending, duplicate-free). -/
def np_unique_int (l : List ℤ) : List ℤ := l.toFinset.sort (· ≤ ·)

/-- `np.mean` of a rational list (`nan` for the empty list is never
consulted: the mean is only taken over nonempty label groups). -/
def meanQ (l : List ℚ) : ℚ := l.sum / (l.length : ℚ)

/-- `dists[labels == l]`. -/
def labelValues (labels : List ℤ) (dists : List ℚ) (l : ℤ) : List ℚ :=
  ((labels.zip dists).filter (fun p => decide (p.1 = l))).map (fun p => p.2)

/-- `DBSCANDistanceCluster._mean_dist`: for each label in ascending
order append its cluster mean — and for the outlier label `-1` the
source appends the sentinel `-1` and then (missing `continue`
faithfully reproduced) ALSO appends the computed outlier mean. -/
def mean_dist_table (labels : List ℤ) (dists : List ℚ) : List ℚ :=
  (np_unique_int labels).flatMap (fun l =>
    (if l = -1 then [(-1 : ℚ)] else []) ++ [meanQ (labelValues labels dists l)])

/-- Stable insertion of index `i` into an index list sorted by the value
`l.getD · 0` (ties keep earlier-inserted, i.e. smaller, index first). -/
def insertIdxQ (l : List ℚ) (i : ℕ) : List ℕ → List ℕ
  | [] => [i]
  | j :: js => if l.getD i 0 < l.getD j 0 then i :: j :: js else j :: insertIdxQ l i js

/-- `np.argsort` of a rational list (stable model). -/
def argsortQ (l : List ℚ) : List ℕ :=
  (List.range l.length).foldl (fun acc i => insertIdxQ l i acc) []

/-- numpy integer indexing with a single negative-index wrap. -/
def npGetInt (l : List ℤ) (i : ℤ) : ℤ :=
  if i < 0 then l.getD (l.length - (-i).toNat) 0 else l.getD i.toNat 0

/-- `DBSCANDistanceCluster.fit_predict`: the sklearn `DBSCAN` pass is
the external clustering collaborator, so its raw labels
(`dbscan_labels`, reserved outlier label `-1`) are an input; the
embedding covers the library's own post-processing `_mean_dist` +
`_sort_dists`.  Returns `(remapped labels, stored mean_dists table)`. -/
def dbscan_fit_predict (dbscan_labels : List ℤ) (dists : List ℚ) :
    List ℤ × List ℚ :=
  let md := mean_dist_table dbscan_labels dists
  let si := argsortQ md
  let sorted_md := si.map (fun i => md.getD i 0)
  let mapper : List ℤ := (List.range md.length).map (fun j => ((si.indexOf j : ℕ) : ℤ))
  (dbscan_labels.map (fun l => npGetInt mapper l), sorted_md)

/-- Mean of the values carrying a given final label (used to state the
ordering property of the remapped labels). -/
def final_label_mean (labels : List ℤ) (dists : List ℚ) (l : ℤ) : ℚ :=
  meanQ (labelValues labels dists l)

/-! ## `RheedMask.get_group_intensity` (Group Intensity Attributor)

2-D pixel arrays are index functions with explicit bounds; a `Region`
carries its bounding box and its boolean pixel mask (indexed relative
to the box).  The external scipy `curve_fit` may fail (`Option`,
keyed by region id since its inputs are determined by the region), and
the runtime success of the `try`-guarded numpy mask assignment —
whose failure modes (shape broadcasts on degenerate fitted windows)
live outside exact rational semantics — is an oracle `register_ok`. -/

/-- A segmented region: bbox `(minr, minc, maxr, maxc)` plus pixel
mask of shape `(maxr-minr, maxc-minc)`. -/
structure Region where
  minr : ℕ
  minc : ℕ
  maxr : ℕ
  maxc : ℕ
  image : ℕ → ℕ → Bool

/-- The per-pattern state consumed by `get_group_intensity`
(`RheedMask` fields, flattened-peak bookkeeping included). -/
structure RheedMaskData where
  patRows : ℕ
  patCols : ℕ
  pattern : ℕ → ℕ → ℚ
  regions : List Region
  collapses : List Spectrum
  collapses_peaks : List (List ℕ)
  cluster_labels : List ℤ
  cluster_labels_unique : List ℤ
  collapses_peaks_flatten_ana_res : List PeakAnalysisResult
  collapses_peaks_flatten_cis : List ℕ
  collapses_peaks_flatten_pids : List ℕ
  collapses_peaks_flatten_regions : List ℕ

/-- Warnings surfaced by `get_group_intensity`. -/
inductive GIWarn where
  | gaussFail : ℕ → GIWarn
  | maskFail : ℕ → GIWarn
deriving DecidableEq

/-- Mutable state threaded through the attribution loops: the current
label's pixel mask, the cross-label `gauss_fit` cache, accumulated
warnings. -/
structure GIState where
  group_mask : ℕ → ℕ → Bool
  gauss_fit : List (ℕ × List ℚ)
  warns : List GIWarn

/-- Region id owning flattened peak `p`. -/
def flat_region (S : RheedMaskData) (p : ℕ) : ℕ :=
  S.collapses_peaks_flatten_regions.getD p 0

/-- The initial-guess parameter vector for the multi-Gaussian fit of a
region (`[h0, x0, w, h1, x1, w, …, 0]` with
`w = (max(xs)-min(xs)) / (2*len(ps))`). -/
def gauss_guess (S : RheedMaskData) (rid : ℕ) : List ℚ :=
  let cs := S.collapses.getD rid ⟨[], []⟩
  let ps := S.collapses_peaks.getD rid []
  let xs := ps.map (fun p => cs.ws.getD p 0)
  let hs := ps.map (fun p => cs.spec.getD p 0)
  let width := (maxList xs - minList xs) / (2 * (ps.length : ℚ))
  (List.range ps.length).flatMap (fun k => [hs.getD k 0, xs.getD k 0, width]) ++ [0]

/-- The `gauss_fit` cache consultation of `get_group_intensity`: cache
hit returns the stored parameters; otherwise `curve_fit` is attempted
and a failure (caught exception) warns and falls back to the
initial-guess parameters.  Returns `(popt, cache, warns)`. -/
def gi_fit (S : RheedMaskData) (curve_fit : ℕ → Option (List ℚ)) (st : GIState)
    (rid : ℕ) : List ℚ × List (ℕ × List ℚ) × List GIWarn :=
  match st.gauss_fit.lookup rid with
  | some popt => (popt, st.gauss_fit, st.warns)
  | none =>
    match curve_fit rid with
    | some popt => (popt, (rid, popt) :: st.gauss_fit, st.warns)
    | none =>
      (gauss_guess S rid, (rid, gauss_guess S rid) :: st.gauss_fit,
        st.warns ++ [GIWarn.gaussFail rid])

/-- The body of the innermost loop of `get_group_intensity` for one
contributing peak `p`: center peaks (`p in cidxs`) are skipped
unconditionally; single-peak regions OR-in their whole mask; multi-peak
regions carve the fitted/guessed Gaussian window out of the region mask,
with the numpy mask assignment guarded by `try/except` (failure warns
and leaves the mask untouched). -/
def process_peak (S : RheedMaskData) (curve_fit : ℕ → Option (List ℚ))
    (register_ok : ℕ → Bool) (st : GIState) (p : ℕ) : GIState :=
  if p ∈ S.collapses_peaks_flatten_cis then st
  else
    let pid := S.collapses_peaks_flatten_pids.getD p 0
    let rid := flat_region S p
    let region := S.regions.getD rid ⟨0, 0, 0, 0, fun _ _ => false⟩
    if (S.collapses_peaks.getD rid []).length = 1 then
      { st with group_mask := fun r c =>
          st.group_mask r c ||
            (decide (region.minr ≤ r) && decide (r < region.maxr) &&
             decide (region.minc ≤ c) && decide (c < region.maxc) &&
             region.image (r - region.minr) (c - region.minc)) }
    else
      let p_neighbor := ((List.range S.collapses_peaks_flatten_regions.length).filter
          (fun q => decide (flat_region S q = rid))).map
          (fun q => S.collapses_peaks_flatten_pids.getD q 0)
      let pid2 := pid - minNatList p_neighbor
      let fr := gi_fit S curve_fit st rid
      let popt := fr.1
      let center := popt.getD (pid2 * 3 + 1) 0
      let sig := |popt.getD (pid2 * 3 + 2) 0|
      let old_minc := region.minc
      let minc2 : ℤ := max (region.minc : ℤ) (qtrunc (center - sig))
      let maxc2 : ℤ := min (region.maxc : ℤ) (qtrunc (center + sig))
      if register_ok rid then
        let colLo := npClampIdx S.patCols minc2
        let colHi := npClampIdx S.patCols maxc2
        let imgColLo := npClampIdx (region.maxc - old_minc) (minc2 - (old_minc : ℤ))
        { group_mask := fun r c =>
            st.group_mask r c ||
              (decide (region.minr ≤ r) && decide (r < region.maxr) &&
               decide (colLo ≤ c) && decide (c < colHi) &&
               region.image (r - region.minr) (imgColLo + (c - colLo))),
          gauss_fit := fr.2.1, warns := fr.2.2 }
      else
        { group_mask := st.group_mask, gauss_fit := fr.2.1,
          warns := fr.2.2 ++ [GIWarn.maskFail rid] }

/-- Process one selected family of the current label. -/
def process_ana (S : RheedMaskData) (curve_fit : ℕ → Option (List ℚ))
    (register_ok : ℕ → Bool) (st : GIState) (ana : PeakAnalysisResult) : GIState :=
  ana.peaks_family.foldl (process_peak S curve_fit register_ok) st

/-- Sum of the pattern intensity under a pixel mask. -/
def mask_intensity (S : RheedMaskData) (mask : ℕ → ℕ → Bool) : ℚ :=
  Finset.sum (Finset.range S.patRows) (fun r =>
    Finset.sum (Finset.range S.patCols) (fun c =>
      if mask r c then S.pattern r c else 0))

/-- The body of the outer loop of `get_group_intensity` for one global
cluster label `ul`: fresh mask, fold over the families whose cluster
label equals `ul`, append the mask's intensity. -/
def process_label (S : RheedMaskData) (curve_fit : ℕ → Option (List ℚ))
    (register_ok : ℕ → Bool)
    (acc : List ℚ × List (ℕ × List ℚ) × List GIWarn) (ul : ℤ) :
    List ℚ × List (ℕ × List ℚ) × List GIWarn :=
  let selected := ((S.cluster_labels.zip S.collapses_peaks_flatten_ana_res).filter
      (fun pr => decide (pr.1 = ul))).map (fun pr => pr.2)
  let st0 : GIState := ⟨fun _ _ => false, acc.2.1, acc.2.2⟩
  let st1 := selected.foldl (process_ana S curve_fit register_ok) st0
  (acc.1 ++ [mask_intensity S st1.group_mask], st1.gauss_fit, st1.warns)

/-- `RheedMask.get_group_intensity`: per unique global label the group
intensity, the relative intensities, and every surfaced warning.  All
caught exception paths are warnings; the function always returns. -/
def get_group_intensity (S : RheedMaskData) (curve_fit : ℕ → Option (List ℚ))
    (register_ok : ℕ → Bool) : List ℚ × List ℚ × List GIWarn :=
  let res := S.cluster_labels_unique.foldl (process_label S curve_fit register_ok)
    ([], [], [])
  let gi := res.1
  (gi, gi.map (fun x => x / gi.sum), res.2.2)

/-- Drop every center peak (`cidxs` member) from every stored family:
the comparison object for the C10 statement that center peaks never
contribute. -/
def filter_cis (S : RheedMaskData) : RheedMaskData :=
  { S with collapses_peaks_flatten_ana_res :=
      S.collapses_peaks_flatten_ana_res.map (fun r =>
        ⟨r.peaks_family.filter (fun q => decide (q ∉ S.collapses_peaks_flatten_cis)),
          r.avg_dist, r.avg_err⟩) }

deriving instance DecidableEq for Except

/-- The invariant maintained by the greedy acceptance loop of
`get_peaks_group` with `exclusive = True`. -/
def GpgInv (st : Finset ℕ × List FamPair) : Prop :=
  (∀ i, i ∈ st.1 ↔ ∃ g ∈ st.2, i ∈ g.1) ∧
  st.2.Pairwise (fun g1 g2 => ∀ p, p ∈ g1.1 → p ∉ g2.1) ∧
  (∀ g ∈ st.2, g.2 < ⊤) ∧
  st.2.Pairwise (fun g1 g2 => g1.2 ≤ g2.2)

/-! ## Concrete scenario data -/

/-- Coordinate axis `0, 1, …, 120` of the degenerate-center scenario. -/
def c1_ws : List ℚ := (List.range 121).map (fun i => (i : ℚ))

/-- The spectrum of the degenerate-center scenario (intensities are
irrelevant to the peak-distance analysis). -/
def c1_spectrum : Spectrum := ⟨c1_ws, c1_ws⟩

/-- The `AnaParams` reaching the family-search loop in the
degenerate-center scenario (center row `|wj − 40|`, center peak 40 at
index 3). -/
def c1_params : AnaParams := ⟨5, [30, 20, 10, 0, 60], 40, 3, 0, 120, 1 / 100, 15, 1⟩

/-- The first family the search emits in the degenerate-center
scenario. -/
def c1_first_family : PeakFamilyAux :=
  ⟨⟨[3, 4], ((60 : ℚ) : WithTop ℚ), ((0 : ℚ) : WithTop ℚ)⟩, [0, 1], 0⟩

/-- A two-peak single-region pattern state used to exercise the
attribution fallback paths. -/
def c6_S : RheedMaskData where
  patRows := 2
  patCols := 4
  pattern := fun _ _ => 1
  regions := [⟨0, 0, 2, 4, fun _ _ => true⟩]
  collapses := [⟨[0, 1, 2, 3], [0, 1, 2, 3]⟩]
  collapses_peaks := [[1, 2]]
  cluster_labels := [0]
  cluster_labels_unique := [0]
  collapses_peaks_flatten_ana_res := [⟨[0, 1], ((10 : ℚ) : WithTop ℚ), ((0 : ℚ) : WithTop ℚ)⟩]
  collapses_peaks_flatten_cis := []
  collapses_peaks_flatten_pids := [0, 1]
  collapses_peaks_flatten_regions := [0, 0]

/-- A pattern state whose recorded center indices are exactly the peaks
within tolerance 3 of midpoint 5 among flattened positions `[5, 10]`. -/
def c10_S : RheedMaskData where
  patRows := 1
  patCols := 1
  pattern := fun _ _ => 1
  regions := [⟨0, 0, 1, 1, fun _ _ => true⟩]
  collapses := [⟨[0], [0]⟩]
  collapses_peaks := [[0, 1]]
  cluster_labels := [0]
  cluster_labels_unique := [0]
  collapses_peaks_flatten_ana_res := [⟨[0, 1], ((5 : ℚ) : WithTop ℚ), ((0 : ℚ) : WithTop ℚ)⟩]
  collapses_peaks_flatten_cis := [0]
  collapses_peaks_flatten_pids := [0, 1]
  collapses_peaks_flatten_regions := [0, 0]

/-! # Theorems -/

set_option maxRecDepth 100000

/-- C1.  The spec's degenerate-center scenario (peaks `[10,20,30,40,100]`
on domain `[0,120]`, center target `60`, `abs_tolerant = 15`): the claim
says center selection reports no usable center (`-1`) and the engine
returns an empty family list.  The code's `get_center_peak_idx` compares
the signed difference `peaks[ci] - center` (no `abs`), so it returns
index `3` (peak `40`, true distance `20 > 15`), and
`Spectrum.analyze_peaks_distance_cent` goes on to emit three families
`[3,4]`, `[1,3,4]`, `[0,3,4]` with spacings `60`, `20`, `30` instead of
the documented empty list. -/
theorem c1_center_selection_missing_abs :
    get_center_peak_idx ([10, 20, 30, 40, 100] : List ℚ) 60 15 = 3 ∧
    get_center_peak_idx ([10, 20, 30, 40, 100] : List ℚ) 60 15 ≠ -1 ∧
    (c1_spectrum.analyze_peaks_distance_cent [10, 20, 30, 40, 100] (1 / 100) 15 1).map
      PeakAnalysisResult.peaks_family = [[3, 4], [1, 3, 4], [0, 3, 4]] ∧
    (c1_spectrum.analyze_peaks_distance_cent [10, 20, 30, 40, 100] (1 / 100) 15 1).map
      PeakAnalysisResult.avg_dist =
      [((60 : ℚ) : WithTop ℚ), ((20 : ℚ) : WithTop ℚ), ((30 : ℚ) : WithTop ℚ)] ∧
    c1_spectrum.analyze_peaks_distance_cent [10, 20, 30, 40, 100] (1 / 100) 15 1 ≠ [] := by
  decide!

/-- C2.  Relabeling after clustering, on periodicities
`[50,30,30,10,10]` with external DBSCAN labels `[-1,0,0,1,1]`
(outlier `50`, cluster means `30` and `10`): the missing `continue` in
`_mean_dist` appends both the `-1` sentinel and the computed outlier
mean, so the stored mean table `[-1,10,30,50]` has 4 entries for the 3
final labels `{0,1,3}`, and the remapped labels are NOT ordered by
ascending cluster mean: label `0` carries mean `30` while label `3`
carries mean `10`. -/
theorem c2_relabel_mean_table_broken_with_outliers :
    dbscan_fit_predict [-1, 0, 0, 1, 1] [50, 30, 30, 10, 10] =
      ([1, 0, 0, 3, 3], [-1, 10, 30, 50]) ∧
    final_label_mean [1, 0, 0, 3, 3] [50, 30, 30, 10, 10] 0 = 30 ∧
    final_label_mean [1, 0, 0, 3, 3] [50, 30, 30, 10, 10] 3 = 10 ∧
    ¬ (final_label_mean [1, 0, 0, 3, 3] [50, 30, 30, 10, 10] 0 ≤
        final_label_mean [1, 0, 0, 3, 3] [50, 30, 30, 10, 10] 3) ∧
    (dbscan_fit_predict [-1, 0, 0, 1, 1] [50, 30, 30, 10, 10]).2.length ≠
      (np_unique_int (dbscan_fit_predict [-1, 0, 0, 1, 1] [50, 30, 30, 10, 10]).1).length := by
  decide!

/-- C5.  The matrix actually consumed by
`Spectrum.analyze_peaks_distance_cent` is NOT polar: the method negates
the lower triangle of an already-polar matrix a second time, restoring
the symmetric absolute distances (shown at peak positions `[40, 60]`,
where both entries are `+20`), while the flattened cross-region path
consumes the genuinely polar matrix (`-20` below the diagonal). -/
theorem c5_spectrum_path_consumed_matrix_not_polar :
    spectrum_consumed_interdist [40, 60] 0 1 = 20 ∧
    spectrum_consumed_interdist [40, 60] 1 0 = 20 ∧
    spectrum_consumed_interdist [40, 60] 1 0 ≠ -spectrum_consumed_interdist [40, 60] 0 1 ∧
    flatten_consumed_interdist [40, 60] 1 0 = -flatten_consumed_interdist [40, 60] 0 1 ∧
    flatten_consumed_interdist [40, 60] 1 0 = -20 := by
  decide!

/-- C8.  `Spectrum.smooth` accepts `inplace` but does not forward it to
`_update_spectrum`: called with `inplace = False` on the spectrum
`([0],[0])` with a Gaussian filter that shifts by one, the receiver is
still overwritten (it becomes `([1],[0])`, not left at `([0],[0])`) and
the returned object is the mutated receiver, not a fresh copy — unlike
`normalization` and `clip`, which honour `inplace = False`. -/
theorem c8_smooth_ignores_inplace :
    (Spectrum.smooth ⟨[0], [0]⟩ (fun l => l.map (fun x => x + 1)) false).1 = ⟨[1], [0]⟩ ∧
    (Spectrum.smooth ⟨[0], [0]⟩ (fun l => l.map (fun x => x + 1)) false).1 ≠ ⟨[0], [0]⟩ ∧
    (Spectrum.smooth ⟨[0], [0]⟩ (fun l => l.map (fun x => x + 1)) false).2 =
      (Spectrum.smooth ⟨[0], [0]⟩ (fun l => l.map (fun x => x + 1)) false).1 ∧
    (Spectrum.normalization ⟨[0], [0]⟩ false).1 = ⟨[0], [0]⟩ ∧
    (Spectrum.clip ⟨[0], [0]⟩ 0 1 false).1 = ⟨[0], [0]⟩ := by
  decide!

/-- A singular-baseline scenario survives `clean_collapse`: the
`LinAlgError` raised by `remove_background` is caught at the call site,
a warning is surfaced, and the spectrum still flows through
normalization and smoothing.  (C7) -/
theorem c7_clean_collapse_survives_singular_background (cs : Spectrum)
    (g : List ℚ → List ℚ) (h : cs.remove_background 2 true = .error ()) :
    clean_collapse g true true true [cs] =
      ([⟨g ((cs.normalization true).1.spec), cs.ws⟩], [CCWarn.linalg]) ∧
    CCWarn.linalg ∈ (clean_collapse g true true true [cs]).2 := by
  have h1 : clean_collapse g true true true [cs] =
      ([⟨g ((cs.normalization true).1.spec), cs.ws⟩], [CCWarn.linalg]) := by
    simp only [clean_collapse, List.foldl_cons, List.foldl_nil, clean_collapse_one, h]
    rfl
  exact ⟨h1, by rw [h1]; exact List.mem_singleton.mpr rfl⟩

/-- C7 witness: on the degenerate coordinate axis `[1,1,1,1]` the
normal matrix of the baseline fit is singular, `remove_background`
signals `LinAlgError`, and `clean_collapse` returns normally with the
warning. -/
theorem c7_witness :
    (Spectrum.remove_background ⟨[1, 2, 3, 4], [1, 1, 1, 1]⟩ 2 true = .error ()) ∧
    (clean_collapse id true true true [⟨[1, 2, 3, 4], [1, 1, 1, 1]⟩] =
      ([⟨id ((Spectrum.normalization ⟨[1, 2, 3, 4], [1, 1, 1, 1]⟩ true).1.spec),
          [1, 1, 1, 1]⟩], [CCWarn.linalg]) ∧
      CCWarn.linalg ∈ (clean_collapse id true true true [⟨[1, 2, 3, 4], [1, 1, 1, 1]⟩]).2) :=
  ⟨by decide!,
    c7_clean_collapse_survives_singular_background ⟨[1, 2, 3, 4], [1, 1, 1, 1]⟩ id (by decide!)⟩

/-! ### min/max list lemmas for the normalization bounds -/

theorem foldl_min_le_init (l : List ℚ) (a : ℚ) : l.foldl min a ≤ a := by
  induction l generalizing a with
  | nil => exact le_refl a
  | cons x xs ih => exact le_trans (ih (min a x)) (min_le_left a x)

theorem foldl_min_le_mem (l : List ℚ) (a : ℚ) : ∀ x ∈ l, l.foldl min a ≤ x := by
  induction l generalizing a with
  | nil => intro x hx; cases hx
  | cons y ys ih =>
    intro x hx
    rcases List.mem_cons.mp hx with h | h
    · subst h
      exact le_trans (foldl_min_le_init ys (min a x)) (min_le_right a x)
    · exact ih (min a y) x h

theorem foldl_min_mem (l : List ℚ) (a : ℚ) : l.foldl min a = a ∨ l.foldl min a ∈ l := by
  induction l generalizing a with
  | nil => exact Or.inl rfl
  | cons x xs ih =>
    rcases ih (min a x) with h | h
    · rcases min_cases a x with ⟨hm, _⟩ | ⟨hm, _⟩
      · exact Or.inl (by rw [List.foldl_cons, h, hm])
      · exact Or.inr (by rw [List.foldl_cons, h, hm]; exact List.mem_cons_self x xs)
    · exact Or.inr (List.mem_cons_of_mem x h)

theorem foldl_max_init_le (l : List ℚ) (a : ℚ) : a ≤ l.foldl max a := by
  induction l generalizing a with
  | nil => exact le_refl a
  | cons x xs ih => exact le_trans (le_max_left a x) (ih (max a x))

theorem foldl_max_mem_le (l : List ℚ) (a : ℚ) : ∀ x ∈ l, x ≤ l.foldl max a := by
  induction l generalizing a with
  | nil => intro x hx; cases hx
  | cons y ys ih =>
    intro x hx
    rcases List.mem_cons.mp hx with h | h
    · subst h
      exact le_trans (le_max_right a x) (foldl_max_init_le ys (max a x))
    · exact ih (max a y) x h

theorem foldl_max_mem (l : List ℚ) (a : ℚ) : l.foldl max a = a ∨ l.foldl max a ∈ l := by
  induction l generalizing a with
  | nil => exact Or.inl rfl
  | cons x xs ih =>
    rcases ih (max a x) with h | h
    · rcases max_cases a x with ⟨hm, _⟩ | ⟨hm, _⟩
      · exact Or.inl (by rw [List.foldl_cons, h, hm])
      · exact Or.inr (by rw [List.foldl_cons, h, hm]; exact List.mem_cons_self x xs)
    · exact Or.inr (List.mem_cons_of_mem x h)

theorem minList_mem (l : List ℚ) (h : l ≠ []) : minList l ∈ l := by
  rcases foldl_min_mem l (l.headD 0) with h1 | h1
  · rw [minList, h1]
    cases l with
    | nil => exact absurd rfl h
    | cons x xs => exact List.mem_cons_self x xs
  · exact h1

theorem minList_le (l : List ℚ) : ∀ x ∈ l, minList l ≤ x :=
  foldl_min_le_mem l (l.headD 0)

theorem maxList_mem (l : List ℚ) (h : l ≠ []) : maxList l ∈ l := by
  rcases foldl_max_mem l (l.headD 0) with h1 | h1
  · rw [maxList, h1]
    cases l with
    | nil => exact absurd rfl h
    | cons x xs => exact List.mem_cons_self x xs
  · exact h1

theorem le_maxList (l : List ℚ) : ∀ x ∈ l, x ≤ maxList l :=
  foldl_max_mem_le l (l.headD 0)

theorem minList_map_mono (f : ℚ → ℚ) (hf : Monotone f) (l : List ℚ) (h : l ≠ []) :
    minList (l.map f) = f (minList l) := by
  have hne : l.map f ≠ [] := by
    cases l with
    | nil => exact absurd rfl h
    | cons x xs => simp
  apply le_antisymm
  · exact minList_le (l.map f) (f (minList l)) (List.mem_map_of_mem f (minList_mem l h))
  · rcases List.mem_map.mp (minList_mem (l.map f) hne) with ⟨x, hx, hfx⟩
    rw [← hfx]
    exact hf (minList_le l x hx)

theorem maxList_map_mono (f : ℚ → ℚ) (hf : Monotone f) (l : List ℚ) (h : l ≠ []) :
    maxList (l.map f) = f (maxList l) := by
  have hne : l.map f ≠ [] := by
    cases l with
    | nil => exact absurd rfl h
    | cons x xs => simp
  apply le_antisymm
  · rcases List.mem_map.mp (maxList_mem (l.map f) hne) with ⟨x, hx, hfx⟩
    rw [← hfx]
    exact hf (le_maxList l x hx)
  · exact le_maxList (l.map f) (f (maxList l)) (List.mem_map_of_mem f (maxList_mem l h))

/-- C9 amended.  For every nonempty spectrum, `normalization` yields a
minimum of exactly `0` and a maximum `(max-min)/(max-min+1e-5) ≤ 1`;
that maximum is within `1e-5` of `1` provided the original intensity
range is at least `1 - 1e-5` (the `+1e-5` denominator guard makes the
unconditional claim fail on small-range spectra, see the
counterexample). -/
theorem c9_normalize_bounds (s : Spectrum) (h : s.spec ≠ []) :
    minList ((s.normalization true).2.spec) = 0 ∧
    maxList ((s.normalization true).2.spec) ≤ 1 ∧
    (1 - 1 / 100000 ≤ maxList s.spec - minList s.spec →
      1 - maxList ((s.normalization true).2.spec) ≤ 1 / 100000) := by
  have hmM : minList s.spec ≤ maxList s.spec :=
    minList_le s.spec (maxList s.spec) (maxList_mem s.spec h)
  set m := minList s.spec with hm
  set M := maxList s.spec with hM
  have hD : (0 : ℚ) < M - m + 1 / 100000 := by linarith
  have hmono : Monotone (fun x : ℚ => (x - m) / (M - m + 1 / 100000)) := by
    intro a b hab
    exact (div_le_div_iff_of_pos_right hD).mpr (by linarith)
  have hspec : (s.normalization true).2.spec =
      s.spec.map (fun x => (x - m) / (M - m + 1 / 100000)) := rfl
  refine ⟨?_, ?_, fun hr => ?_⟩
  · rw [hspec, minList_map_mono _ hmono s.spec h, ← hm, sub_self, zero_div]
  · rw [hspec, maxList_map_mono _ hmono s.spec h, ← hM]
    rw [div_le_one hD]
    linarith
  · rw [hspec, maxList_map_mono _ hmono s.spec h, ← hM]
    rw [sub_le_iff_le_add, ← sub_le_iff_le_add']
    rw [le_div_iff₀ hD]
    nlinarith [hr]

/-- C9 witness: the two-sample spectrum `([0,2],[0,0])` has range `2`,
so the amended bounds apply: normalized minimum `0`, maximum within
`1e-5` of `1`. -/
theorem c9_witness :
    (([0, 2] : List ℚ) ≠ [] ∧
      1 - 1 / 100000 ≤ maxList [0, 2] - minList [0, 2]) ∧
    (minList ((Spectrum.normalization ⟨[0, 2], [0, 0]⟩ true).2.spec) = 0 ∧
     maxList ((Spectrum.normalization ⟨[0, 2], [0, 0]⟩ true).2.spec) ≤ 1 ∧
     1 - maxList ((Spectrum.normalization ⟨[0, 2], [0, 0]⟩ true).2.spec) ≤ 1 / 100000) := by
  have hb := c9_normalize_bounds ⟨[0, 2], [0, 0]⟩ (by decide!)
  exact ⟨⟨by decide!, by decide!⟩, hb.1, hb.2.1, hb.2.2 (by decide!)⟩

/-- C9 counterexample.  On the constant one-sample spectrum `([5],[0])`
(`max - min = 0`), `normalization` produces `[0]`: the maximum of the
normalized intensities is `0`, which is NOT within `1e-5` of `1`, so
the claim "for every spectrum with at least one sample the normalized
maximum is within `1e-5` of `1`" fails. -/
theorem c9_normalize_constant_spectrum_max_not_one :
    ((Spectrum.normalization ⟨[5], [0]⟩ true).2).spec = [0] ∧
    ¬ (1 - maxList ((Spectrum.normalization ⟨[5], [0]⟩ true).2).spec ≤ 1 / 100000) := by
  decide!

/-! ### Peak Group Resolver lemmas (C3) -/

theorem mem_insert_fam {x a : FamPair} : ∀ {l : List FamPair},
    a ∈ insert_fam x l ↔ a = x ∨ a ∈ l := by
  intro l
  induction l with
  | nil => simp [insert_fam]
  | cons y ys ih =>
    by_cases h : x.2 < y.2
    · simp [insert_fam, h]
    · simp only [insert_fam, if_neg h, List.mem_cons, ih]
      tauto

theorem pairwise_le_insert_fam {x : FamPair} : ∀ {l : List FamPair},
    l.Pairwise (fun a b => a.2 ≤ b.2) →
    (insert_fam x l).Pairwise (fun a b => a.2 ≤ b.2) := by
  intro l
  induction l with
  | nil => intro _; simp [insert_fam]
  | cons y ys ih =>
    intro hl
    rcases List.pairwise_cons.mp hl with ⟨hy, hys⟩
    by_cases h : x.2 < y.2
    · rw [insert_fam, if_pos h]
      refine List.pairwise_cons.mpr ⟨?_, hl⟩
      intro b hb
      rcases List.mem_cons.mp hb with hb | hb
      · exact le_of_lt (hb ▸ h)
      · exact le_trans (le_of_lt h) (hy b hb)
    · rw [insert_fam, if_neg h]
      refine List.pairwise_cons.mpr ⟨?_, ih hys⟩
      intro b hb
      rcases mem_insert_fam.mp hb with hb | hb
      · exact hb ▸ le_of_not_lt h
      · exact hy b hb

theorem mem_sort_fams_aux {a : FamPair} : ∀ (l acc : List FamPair),
    a ∈ l.foldl (fun acc x => insert_fam x acc) acc ↔ a ∈ acc ∨ a ∈ l := by
  intro l
  induction l with
  | nil => intro acc; simp
  | cons x xs ih =>
    intro acc
    rw [List.foldl_cons, ih (insert_fam x acc), mem_insert_fam]
    simp only [List.mem_cons]
    tauto

theorem mem_sort_fams {a : FamPair} {l : List FamPair} :
    a ∈ sort_fams l ↔ a ∈ l := by
  rw [sort_fams, mem_sort_fams_aux]
  simp

theorem pairwise_sort_fams_aux : ∀ (l acc : List FamPair),
    acc.Pairwise (fun a b => a.2 ≤ b.2) →
    (l.foldl (fun acc x => insert_fam x acc) acc).Pairwise (fun a b => a.2 ≤ b.2) := by
  intro l
  induction l with
  | nil => intro acc h; exact h
  | cons x xs ih =>
    intro acc h
    exact ih (insert_fam x acc) (pairwise_le_insert_fam h)

theorem pairwise_sort_fams (l : List FamPair) :
    (sort_fams l).Pairwise (fun a b => a.2 ≤ b.2) :=
  pairwise_sort_fams_aux l [] (List.Pairwise.nil)

theorem gpg_fold_inv : ∀ (l : List FamPair) (st : Finset ℕ × List FamPair),
    l.Pairwise (fun a b => a.2 ≤ b.2) → GpgInv st →
    (∀ g ∈ st.2, ∀ b ∈ l, g.2 ≤ b.2) →
    GpgInv (l.foldl (gpg_step true) st) ∧
    (∀ g ∈ (l.foldl (gpg_step true) st).2, g ∈ st.2 ∨ g ∈ l) := by
  intro l
  induction l with
  | nil =>
    intro st _ hinv _
    exact ⟨hinv, fun g hg => Or.inl hg⟩
  | cons a l' ih =>
    intro st hsort hinv hbound
    rcases List.pairwise_cons.mp hsort with ⟨ha_le, hsort'⟩
    rcases hinv with ⟨hiff, hdisj, hfin, hord⟩
    rw [List.foldl_cons]
    have hstep : GpgInv (gpg_step true st a) ∧
        (∀ g ∈ (gpg_step true st a).2, g ∈ st.2 ∨ g = a) := by
      by_cases hfa : a.2 < ⊤
      · by_cases hsel : ∀ p ∈ a.1, p ∉ st.1
        · rw [gpg_step, if_pos hfa, if_pos (Or.inr hsel)]
          refine ⟨⟨?_, ?_, ?_, ?_⟩, ?_⟩
          · intro i
            simp only [Finset.mem_union, List.mem_toFinset, hiff, List.mem_append,
              List.mem_singleton]
            constructor
            · rintro (⟨g, hg, hig⟩ | hia)
              · exact ⟨g, Or.inl hg, hig⟩
              · exact ⟨a, Or.inr rfl, hia⟩
            · rintro ⟨g, hg | hg, hig⟩
              · exact Or.inl ⟨g, hg, hig⟩
              · exact Or.inr (hg ▸ hig)
          · rw [List.pairwise_append]
            refine ⟨hdisj, List.pairwise_singleton _ _, ?_⟩
            intro g hg b hb p hpg
            rw [List.mem_singleton] at hb
            subst hb
            intro hpa
            exact hsel p hpa ((hiff p).mpr ⟨g, hg, hpg⟩)
          · intro g hg
            rcases List.mem_append.mp hg with hg | hg
            · exact hfin g hg
            · rw [List.mem_singleton] at hg; exact hg ▸ hfa
          · rw [List.pairwise_append]
            refine ⟨hord, List.pairwise_singleton _ _, ?_⟩
            intro g hg b hb
            rw [List.mem_singleton] at hb
            exact hb ▸ hbound g hg a (List.mem_cons_self a l')
          · intro g hg
            rcases List.mem_append.mp hg with hg | hg
            · exact Or.inl hg
            · rw [List.mem_singleton] at hg; exact Or.inr hg
        · rw [gpg_step, if_pos hfa, if_neg (by simp [hsel])]
          exact ⟨⟨hiff, hdisj, hfin, hord⟩, fun g hg => Or.inl hg⟩
      · rw [gpg_step, if_neg hfa]
        exact ⟨⟨hiff, hdisj, hfin, hord⟩, fun g hg => Or.inl hg⟩
    have hbound' : ∀ g ∈ (gpg_step true st a).2, ∀ b ∈ l', g.2 ≤ b.2 := by
      intro g hg b hb
      rcases hstep.2 g hg with hg' | hg'
      · exact hbound g hg' b (List.mem_cons_of_mem a hb)
      · exact hg' ▸ ha_le b hb
    rcases ih (gpg_step true st a) hsort' hstep.1 hbound' with ⟨hinv', hmem'⟩
    refine ⟨hinv', ?_⟩
    intro g hg
    rcases hmem' g hg with hg' | hg'
    · rcases hstep.2 g hg' with h | h
      · exact Or.inl h
      · exact Or.inr (h ▸ List.mem_cons_self a l')
    · exact Or.inr (List.mem_cons_of_mem a hg')

/-- C3.  With `exclusive = True` and in-range families,
`get_peaks_group` returns a partition of `{0,…,npeaks-1}`: every peak
index lies in some returned group and all members are in range, the
accepted (non-leftover) groups are pairwise disjoint, families with
non-finite `avg_dist` are dropped, the accepted groups appear in
ascending `avg_dist` order, and the final group is the leftover
pseudo-group (exactly the unclaimed indices) with sentinel distance
`-1`. -/
theorem c3_get_peaks_group_partition (ana_res : List PeakAnalysisResult) (npeaks : ℕ)
    (hmem : ∀ r ∈ ana_res, ∀ p ∈ r.peaks_family, p < npeaks) :
    Spectrum.get_peaks_group ana_res npeaks true =
      gpg_accepted ana_res true ++
        [(gpg_leftover ana_res npeaks true, ((-1 : ℚ) : WithTop ℚ))] ∧
    (∀ i, i < npeaks → ∃ g ∈ Spectrum.get_peaks_group ana_res npeaks true, i ∈ g.1) ∧
    (∀ g ∈ Spectrum.get_peaks_group ana_res npeaks true, ∀ p ∈ g.1, p < npeaks) ∧
    (gpg_accepted ana_res true).Pairwise (fun g1 g2 => ∀ p, p ∈ g1.1 → p ∉ g2.1) ∧
    (∀ g ∈ gpg_accepted ana_res true, g.2 < ⊤) ∧
    (gpg_accepted ana_res true).Pairwise (fun g1 g2 => g1.2 ≤ g2.2) ∧
    (∀ i, i ∈ gpg_leftover ana_res npeaks true ↔
      i < npeaks ∧ ∀ g ∈ gpg_accepted ana_res true, i ∉ g.1) := by
  have hfold := gpg_fold_inv
    (sort_fams (ana_res.map (fun r => (r.peaks_family, r.avg_dist)))) (∅, [])
    (pairwise_sort_fams _)
    ⟨fun i => by simp, List.Pairwise.nil, fun g hg => absurd hg (List.not_mem_nil g),
      List.Pairwise.nil⟩
    (fun g hg => absurd hg (List.not_mem_nil g))
  rcases hfold with ⟨⟨hiff, hdisj, hfin, hord⟩, hsub⟩
  have hacc_mem : ∀ g ∈ gpg_accepted ana_res true, ∃ r ∈ ana_res,
      g = (r.peaks_family, r.avg_dist) := by
    intro g hg
    rcases hsub g hg with h | h
    · exact absurd h (List.not_mem_nil g)
    · rcases List.mem_map.mp (mem_sort_fams.mp h) with ⟨r, hr, hgr⟩
      exact ⟨r, hr, hgr.symm⟩
  have hsel_iff : ∀ i, i ∈ gpg_selected ana_res true ↔
      ∃ g ∈ gpg_accepted ana_res true, i ∈ g.1 := hiff
  refine ⟨rfl, ?_, ?_, hdisj, hfin, hord, ?_⟩
  · intro i hi
    by_cases hisel : i ∈ gpg_selected ana_res true
    · rcases (hsel_iff i).mp hisel with ⟨g, hg, hig⟩
      exact ⟨g, List.mem_append.mpr (Or.inl hg), hig⟩
    · refine ⟨(gpg_leftover ana_res npeaks true, ((-1 : ℚ) : WithTop ℚ)),
        List.mem_append.mpr (Or.inr (List.mem_singleton.mpr rfl)), ?_⟩
      rw [gpg_leftover, List.mem_filter]
      exact ⟨List.mem_range.mpr hi, by simpa using hisel⟩
  · intro g hg p hp
    rcases List.mem_append.mp hg with hg | hg
    · rcases hacc_mem g hg with ⟨r, hr, hgr⟩
      exact hmem r hr p (by rw [hgr] at hp; exact hp)
    · rw [List.mem_singleton] at hg
      subst hg
      rcases List.mem_filter.mp hp with ⟨hp1, _⟩
      exact List.mem_range.mp hp1
  · intro i
    rw [gpg_leftover, List.mem_filter, List.mem_range]
    constructor
    · rintro ⟨h1, h2⟩
      refine ⟨h1, ?_⟩
      intro g hg hig
      rw [decide_eq_true_eq] at h2
      exact h2 ((hsel_iff i).mpr ⟨g, hg, hig⟩)
    · rintro ⟨h1, h2⟩
      refine ⟨h1, ?_⟩
      rw [decide_eq_true_eq]
      intro hisel
      rcases (hsel_iff i).mp hisel with ⟨g, hg, hig⟩
      exact h2 g hg hig

/-- C3 witness: three families (one with non-finite spacing) over four
peaks. -/
theorem c3_witness :
    (∀ r ∈ [(⟨[0, 2], ((5 : ℚ) : WithTop ℚ), ((0 : ℚ) : WithTop ℚ)⟩ : PeakAnalysisResult),
        ⟨[1, 2], ((3 : ℚ) : WithTop ℚ), ((0 : ℚ) : WithTop ℚ)⟩, ⟨[3], ⊤, ⊤⟩],
      ∀ p ∈ r.peaks_family, p < 4) ∧
    (Spectrum.get_peaks_group
        [⟨[0, 2], ((5 : ℚ) : WithTop ℚ), ((0 : ℚ) : WithTop ℚ)⟩,
          ⟨[1, 2], ((3 : ℚ) : WithTop ℚ), ((0 : ℚ) : WithTop ℚ)⟩, ⟨[3], ⊤, ⊤⟩] 4 true =
      gpg_accepted
        [⟨[0, 2], ((5 : ℚ) : WithTop ℚ), ((0 : ℚ) : WithTop ℚ)⟩,
          ⟨[1, 2], ((3 : ℚ) : WithTop ℚ), ((0 : ℚ) : WithTop ℚ)⟩, ⟨[3], ⊤, ⊤⟩] true ++
        [(gpg_leftover
            [⟨[0, 2], ((5 : ℚ) : WithTop ℚ), ((0 : ℚ) : WithTop ℚ)⟩,
              ⟨[1, 2], ((3 : ℚ) : WithTop ℚ), ((0 : ℚ) : WithTop ℚ)⟩, ⟨[3], ⊤, ⊤⟩] 4 true,
          ((-1 : ℚ) : WithTop ℚ))] ∧
      (∀ i, i < 4 → ∃ g ∈ Spectrum.get_peaks_group
          [⟨[0, 2], ((5 : ℚ) : WithTop ℚ), ((0 : ℚ) : WithTop ℚ)⟩,
            ⟨[1, 2], ((3 : ℚ) : WithTop ℚ), ((0 : ℚ) : WithTop ℚ)⟩, ⟨[3], ⊤, ⊤⟩] 4 true,
        i ∈ g.1) ∧
      (∀ g ∈ Spectrum.get_peaks_group
          [⟨[0, 2], ((5 : ℚ) : WithTop ℚ), ((0 : ℚ) : WithTop ℚ)⟩,
            ⟨[1, 2], ((3 : ℚ) : WithTop ℚ), ((0 : ℚ) : WithTop ℚ)⟩, ⟨[3], ⊤, ⊤⟩] 4 true,
        ∀ p ∈ g.1, p < 4) ∧
      (gpg_accepted
          [⟨[0, 2], ((5 : ℚ) : WithTop ℚ), ((0 : ℚ) : WithTop ℚ)⟩,
            ⟨[1, 2], ((3 : ℚ) : WithTop ℚ), ((0 : ℚ) : WithTop ℚ)⟩, ⟨[3], ⊤, ⊤⟩] true).Pairwise
        (fun g1 g2 => ∀ p, p ∈ g1.1 → p ∉ g2.1) ∧
      (∀ g ∈ gpg_accepted
          [⟨[0, 2], ((5 : ℚ) : WithTop ℚ), ((0 : ℚ) : WithTop ℚ)⟩,
            ⟨[1, 2], ((3 : ℚ) : WithTop ℚ), ((0 : ℚ) : WithTop ℚ)⟩, ⟨[3], ⊤, ⊤⟩] true,
        g.2 < ⊤) ∧
      (gpg_accepted
          [⟨[0, 2], ((5 : ℚ) : WithTop ℚ), ((0 : ℚ) : WithTop ℚ)⟩,
            ⟨[1, 2], ((3 : ℚ) : WithTop ℚ), ((0 : ℚ) : WithTop ℚ)⟩, ⟨[3], ⊤, ⊤⟩] true).Pairwise
        (fun g1 g2 => g1.2 ≤ g2.2) ∧
      (∀ i, i ∈ gpg_leftover
          [⟨[0, 2], ((5 : ℚ) : WithTop ℚ), ((0 : ℚ) : WithTop ℚ)⟩,
            ⟨[1, 2], ((3 : ℚ) : WithTop ℚ), ((0 : ℚ) : WithTop ℚ)⟩, ⟨[3], ⊤, ⊤⟩] 4 true ↔
        i < 4 ∧ ∀ g ∈ gpg_accepted
          [⟨[0, 2], ((5 : ℚ) : WithTop ℚ), ((0 : ℚ) : WithTop ℚ)⟩,
            ⟨[1, 2], ((3 : ℚ) : WithTop ℚ), ((0 : ℚ) : WithTop ℚ)⟩, ⟨[3], ⊤, ⊤⟩] true,
          i ∉ g.1)) :=
  ⟨by decide!, c3_get_peaks_group_partition _ 4 (by decide!)⟩

/-! ### Family acceptance lemmas (C4) -/

theorem all_diff_chain (k : ℕ) : ∀ (l : List ℕ),
    ((List.zipWith (fun x y => y - x) l l.tail).all (fun d => decide (d ≤ k)) = true) →
    l.Chain' (fun x y => y - x ≤ k) := by
  intro l
  induction l with
  | nil => intro _; exact List.chain'_nil
  | cons x xs ih =>
    cases xs with
    | nil => intro _; exact List.chain'_singleton x
    | cons y t =>
      intro h
      simp only [List.tail_cons, List.zipWith_cons_cons, List.all_cons, Bool.and_eq_true,
        decide_eq_true_eq] at h
      refine List.chain'_cons.mpr ⟨h.1, ih ?_⟩
      simpa using h.2

theorem chain'_and {α : Type} {R S : α → α → Prop} : ∀ {l : List α},
    l.Chain' R → l.Chain' S → l.Chain' (fun a b => R a b ∧ S a b) := by
  intro l
  induction l with
  | nil => intro _ _; exact List.chain'_nil
  | cons x xs ih =>
    cases xs with
    | nil => intro _ _; exact List.chain'_singleton x
    | cons y t =>
      intro hR hS
      rcases List.chain'_cons.mp hR with ⟨hR1, hR2⟩
      rcases List.chain'_cons.mp hS with ⟨hS1, hS2⟩
      exact List.chain'_cons.mpr ⟨⟨hR1, hS1⟩, ih hR2 hS2⟩

theorem analyze_aux_mem_struct (P : AnaParams) : ∀ (l : List ℕ)
    (st : Finset (ℕ × ℕ) × List PeakFamilyAux),
    (∀ a ∈ st.2, ∃ j, a = ana_aux P j ∧ ana_allowed P j = true ∧
      1 < (ana_uni_gidx P j).length) →
    ∀ a ∈ (l.foldl (anaStep P) st).2, ∃ j, a = ana_aux P j ∧ ana_allowed P j = true ∧
      1 < (ana_uni_gidx P j).length := by
  intro l
  induction l with
  | nil => intro st h; exact h
  | cons x xs ih =>
    intro st h
    rw [List.foldl_cons]
    refine ih (anaStep P st x) ?_
    intro a ha
    rw [anaStep] at ha
    by_cases h1 : P.ci = x
    · rw [if_pos h1] at ha; exact h a ha
    rw [if_neg h1] at ha
    by_cases h2 : (P.ci, x) ∈ st.1
    · rw [if_pos h2] at ha; exact h a ha
    rw [if_neg h2] at ha
    by_cases h3 : ana_dist P x ≤ P.abs_tolerant
    · rw [if_pos h3] at ha; exact h a ha
    rw [if_neg h3] at ha
    by_cases h4 : ana_allowed P x = true ∧ 1 < (ana_uni_gidx P x).length
    · rw [if_pos h4] at ha
      rcases List.mem_append.mp ha with ha | ha
      · exact h a ha
      · rw [List.mem_singleton] at ha
        exact ⟨x, ha, h4.1, h4.2⟩
    · rw [if_neg h4] at ha; exact h a ha

/-- C4.  Every family emitted by `analyze_peaks_distance_cent` passed
the acceptance guard: its matched grid multiples
(`ln1 + g` over `uni_gidx`) form a strictly increasing list of at least
2 distinct integers whose consecutive differences are at most
`allow_discontinue + 1`; no family violating either condition is
emitted, for any parameters. -/
theorem c4_families_two_multiples_continuous (P : AnaParams) (a : PeakFamilyAux)
    (ha : a ∈ analyze_aux P) :
    2 ≤ (a.uni_gidx.map (fun (g : ℕ) => a.ln1 + (g : ℤ))).length ∧
    (a.uni_gidx.map (fun (g : ℕ) => a.ln1 + (g : ℤ))).Chain' (· < ·) ∧
    (a.uni_gidx.map (fun (g : ℕ) => a.ln1 + (g : ℤ))).Chain'
      (fun x y => y - x ≤ (P.allow_discontinue : ℤ) + 1) := by
  rcases analyze_aux_mem_struct P (get_all_nbr_idxs P.ci P.n) (∅, [])
      (fun b hb => absurd hb (List.not_mem_nil b)) a ha with ⟨j, haj, hallow, hlen⟩
  subst haj
  have huni : (ana_aux P j).uni_gidx = ana_uni_gidx P j := rfl
  have hsorted : (ana_uni_gidx P j).Sorted (· < ·) := by
    rw [ana_uni_gidx]
    exact Finset.sort_sorted_lt _
  have hchain_lt : (ana_uni_gidx P j).Chain' (· < ·) := hsorted.chain'
  have hchain_diff : (ana_uni_gidx P j).Chain'
      (fun x y => y - x ≤ P.allow_discontinue + 1) :=
    all_diff_chain (P.allow_discontinue + 1) (ana_uni_gidx P j) hallow
  have hboth := chain'_and hchain_lt hchain_diff
  rw [huni]
  refine ⟨?_, ?_, ?_⟩
  · simpa using hlen
  · rw [List.chain'_map]
    refine hboth.imp (fun x y hxy => ?_)
    obtain ⟨hlt, hdiff⟩ := hxy
    omega
  · rw [List.chain'_map]
    refine hboth.imp (fun x y hxy => ?_)
    obtain ⟨hlt, hdiff⟩ := hxy
    omega

/-- C4 witness: the first family emitted in the degenerate-center
scenario satisfies the acceptance invariants. -/
theorem c4_witness :
    c1_first_family ∈ analyze_aux c1_params ∧
    (2 ≤ (c1_first_family.uni_gidx.map (fun (g : ℕ) => c1_first_family.ln1 + (g : ℤ))).length ∧
      (c1_first_family.uni_gidx.map
        (fun (g : ℕ) => c1_first_family.ln1 + (g : ℤ))).Chain' (· < ·) ∧
      (c1_first_family.uni_gidx.map (fun (g : ℕ) => c1_first_family.ln1 + (g : ℤ))).Chain'
        (fun x y => y - x ≤ (c1_params.allow_discontinue : ℤ) + 1)) :=
  ⟨by decide!, c4_families_two_multiples_continuous c1_params c1_first_family (by decide!)⟩

/-! ### Group Intensity Attributor lemmas (C6) -/

theorem gi_labels_length (S : RheedMaskData) (cf : ℕ → Option (List ℚ))
    (ro : ℕ → Bool) : ∀ (l : List ℤ) (acc : List ℚ × List (ℕ × List ℚ) × List GIWarn),
    ((l.foldl (process_label S cf ro) acc).1).length = acc.1.length + l.length := by
  intro l
  induction l with
  | nil => intro acc; simp
  | cons x xs ih =>
    intro acc
    rw [List.foldl_cons, ih]
    simp [process_label]
    omega

/-- C6.  `get_group_intensity` always returns intensity and relative
intensity arrays (one entry per unique label); when the external
mixture fit signals failure at a visited multi-peak region the inner
step caches the initial-guess parameter vector as the fallback and
records the `gaussFail` warning, and when the guarded mask registration
fails the step leaves the label's pixel mask untouched (skipping only
that contribution) and records the `maskFail` warning — no failure
escapes. -/
theorem c6_group_intensity_failures_recovered (S : RheedMaskData)
    (cf : ℕ → Option (List ℚ)) (ro : ℕ → Bool) (st : GIState) (p : ℕ)
    (h1 : p ∉ S.collapses_peaks_flatten_cis)
    (h2 : (S.collapses_peaks.getD (flat_region S p) []).length ≠ 1)
    (h3 : st.gauss_fit.lookup (flat_region S p) = none)
    (h4 : cf (flat_region S p) = none)
    (h5 : ro (flat_region S p) = false) :
    (get_group_intensity S cf ro).1.length = S.cluster_labels_unique.length ∧
    (get_group_intensity S cf ro).2.1.length = S.cluster_labels_unique.length ∧
    (process_peak S cf ro st p).gauss_fit.lookup (flat_region S p) =
      some (gauss_guess S (flat_region S p)) ∧
    GIWarn.gaussFail (flat_region S p) ∈ (process_peak S cf ro st p).warns ∧
    (process_peak S cf ro st p).group_mask = st.group_mask ∧
    GIWarn.maskFail (flat_region S p) ∈ (process_peak S cf ro st p).warns := by
  have hfit : gi_fit S cf st (flat_region S p) =
      (gauss_guess S (flat_region S p),
        (flat_region S p, gauss_guess S (flat_region S p)) :: st.gauss_fit,
        st.warns ++ [GIWarn.gaussFail (flat_region S p)]) := by
    rw [gi_fit, h3, h4]
  have hpp : process_peak S cf ro st p =
      { group_mask := st.group_mask,
        gauss_fit := (flat_region S p, gauss_guess S (flat_region S p)) :: st.gauss_fit,
        warns := (st.warns ++ [GIWarn.gaussFail (flat_region S p)]) ++
          [GIWarn.maskFail (flat_region S p)] } := by
    rw [process_peak, if_neg h1, if_neg h2]
    rw [hfit, h5]
    rfl
  refine ⟨?_, ?_, ?_, ?_, ?_, ?_⟩
  · rw [get_group_intensity]
    exact (gi_labels_length S cf ro S.cluster_labels_unique ([], [], [])).trans (by simp)
  · rw [get_group_intensity]
    simp only [List.length_map]
    exact (gi_labels_length S cf ro S.cluster_labels_unique ([], [], [])).trans (by simp)
  · rw [hpp]
    simp [List.lookup]
  · rw [hpp]
    simp
  · rw [hpp]
  · rw [hpp]
    simp

/-- C6 witness: a single region contributing two peaks, a mixture fit
that always fails and a mask registration that always fails; all
recovery conclusions hold at this concrete input. -/
theorem c6_witness :
    ((0 : ℕ) ∉ c6_S.collapses_peaks_flatten_cis ∧
      (c6_S.collapses_peaks.getD (flat_region c6_S 0) []).length ≠ 1 ∧
      (([] : List (ℕ × List ℚ)).lookup (flat_region c6_S 0) = none) ∧
      ((fun _ : ℕ => (none : Option (List ℚ))) (flat_region c6_S 0) = none) ∧
      ((fun _ : ℕ => false) (flat_region c6_S 0) = false)) ∧
    ((get_group_intensity c6_S (fun _ => none) (fun _ => false)).1.length =
        c6_S.cluster_labels_unique.length ∧
      (get_group_intensity c6_S (fun _ => none) (fun _ => false)).2.1.length =
        c6_S.cluster_labels_unique.length ∧
      (process_peak c6_S (fun _ => none) (fun _ => false)
          ⟨fun _ _ => false, [], []⟩ 0).gauss_fit.lookup (flat_region c6_S 0) =
        some (gauss_guess c6_S (flat_region c6_S 0)) ∧
      GIWarn.gaussFail (flat_region c6_S 0) ∈
        (process_peak c6_S (fun _ => none) (fun _ => false)
          ⟨fun _ _ => false, [], []⟩ 0).warns ∧
      (process_peak c6_S (fun _ => none) (fun _ => false)
          ⟨fun _ _ => false, [], []⟩ 0).group_mask = (fun _ _ => false) ∧
      GIWarn.maskFail (flat_region c6_S 0) ∈
        (process_peak c6_S (fun _ => none) (fun _ => false)
          ⟨fun _ _ => false, [], []⟩ 0).warns) :=
  ⟨⟨by decide!, by decide!, rfl, rfl, rfl⟩,
    c6_group_intensity_failures_recovered c6_S (fun _ => none) (fun _ => false)
      ⟨fun _ _ => false, [], []⟩ 0 (by decide!) (by decide!) rfl rfl rfl⟩

/-! ### Center-peak skip lemmas (C10) -/

theorem process_peak_skip (S : RheedMaskData) (cf : ℕ → Option (List ℚ))
    (ro : ℕ → Bool) (st : GIState) (q : ℕ)
    (hq : q ∈ S.collapses_peaks_flatten_cis) : process_peak S cf ro st q = st := by
  rw [process_peak, if_pos hq]

theorem foldl_skip_cis (S : RheedMaskData) (cf : ℕ → Option (List ℚ))
    (ro : ℕ → Bool) : ∀ (fam : List ℕ) (st : GIState),
    fam.foldl (process_peak S cf ro) st =
    (fam.filter (fun q => decide (q ∉ S.collapses_peaks_flatten_cis))).foldl
      (process_peak S cf ro) st := by
  intro fam
  induction fam with
  | nil => intro st; rfl
  | cons q rest ih =>
    intro st
    by_cases hq : q ∈ S.collapses_peaks_flatten_cis
    · rw [List.foldl_cons, process_peak_skip S cf ro st q hq,
        List.filter_cons_of_neg (by simpa using hq)]
      exact ih st
    · rw [List.foldl_cons, List.filter_cons_of_pos (by simpa using hq), List.foldl_cons]
      exact ih (process_peak S cf ro st q)

theorem zip_map_filter_selected (f : PeakAnalysisResult → PeakAnalysisResult) (ul : ℤ) :
    ∀ (labels : List ℤ) (rs : List PeakAnalysisResult),
    ((labels.zip (rs.map f)).filter (fun pr => decide (pr.1 = ul))).map (fun pr => pr.2) =
    (((labels.zip rs).filter (fun pr => decide (pr.1 = ul))).map (fun pr => pr.2)).map f := by
  intro labels
  induction labels with
  | nil => intro rs; simp
  | cons a as ih =>
    intro rs
    cases rs with
    | nil => simp
    | cons r rs' =>
      simp only [List.map_cons, List.zip_cons_cons, List.filter_cons]
      by_cases h : a = ul
      · simp [h, ih]
      · simp [h, ih]

theorem foldl_ana_map_filter (S : RheedMaskData) (cf : ℕ → Option (List ℚ))
    (ro : ℕ → Bool) : ∀ (sel : List PeakAnalysisResult) (st : GIState),
    (sel.map (fun r => (⟨r.peaks_family.filter
        (fun q => decide (q ∉ S.collapses_peaks_flatten_cis)), r.avg_dist, r.avg_err⟩ :
        PeakAnalysisResult))).foldl (process_ana S cf ro) st =
    sel.foldl (process_ana S cf ro) st := by
  intro sel
  induction sel with
  | nil => intro st; rfl
  | cons r rest ih =>
    intro st
    rw [List.map_cons, List.foldl_cons, List.foldl_cons]
    have hstep : process_ana S cf ro st
        (⟨r.peaks_family.filter
          (fun q => decide (q ∉ S.collapses_peaks_flatten_cis)), r.avg_dist, r.avg_err⟩ :
          PeakAnalysisResult) = process_ana S cf ro st r := by
      rw [process_ana, process_ana]
      exact (foldl_skip_cis S cf ro r.peaks_family st).symm
    rw [hstep]
    exact ih (process_ana S cf ro st r)

theorem process_label_filter_cis (S : RheedMaskData) (cf : ℕ → Option (List ℚ))
    (ro : ℕ → Bool) (acc : List ℚ × List (ℕ × List ℚ) × List GIWarn) (ul : ℤ) :
    process_label (filter_cis S) cf ro acc ul = process_label S cf ro acc ul := by
  have hana : process_ana (filter_cis S) cf ro = process_ana S cf ro := rfl
  have hmi : mask_intensity (filter_cis S) = mask_intensity S := rfl
  have hlab : (filter_cis S).cluster_labels = S.cluster_labels := rfl
  have hres : (filter_cis S).collapses_peaks_flatten_ana_res =
      S.collapses_peaks_flatten_ana_res.map (fun r =>
        ⟨r.peaks_family.filter (fun q => decide (q ∉ S.collapses_peaks_flatten_cis)),
          r.avg_dist, r.avg_err⟩) := rfl
  rw [process_label, process_label, hana, hmi, hlab, hres,
    zip_map_filter_selected _ ul S.cluster_labels S.collapses_peaks_flatten_ana_res,
    foldl_ana_map_filter S cf ro]

/-- C10.  Any flattened peak within `abs_tolerant` of the pattern
midpoint — i.e. any index recorded in `collapses_peaks_flatten_cis` by
the periodicity analysis — is skipped unconditionally by
`get_group_intensity`: the inner step is the identity on it, every
family folds exactly as its cis-free filtering does, and the whole
intensity computation is unchanged when all center peaks are removed
from the stored families, so center peaks contribute no pixel mask and
no intensity to any global cluster. -/
theorem c10_center_peaks_never_contribute (S : RheedMaskData)
    (cf : ℕ → Option (List ℚ)) (ro : ℕ → Bool) (st : GIState) (famlist : List ℕ)
    (allpeaks : List ℚ) (mid tol : ℚ) (p : ℕ)
    (hcis : S.collapses_peaks_flatten_cis = get_center_peak_idxs allpeaks mid tol)
    (hp : p < allpeaks.length)
    (hnear : |allpeaks.getD p 0 - mid| < tol) :
    process_peak S cf ro st p = st ∧
    famlist.foldl (process_peak S cf ro) st =
      (famlist.filter (fun q => decide (q ∉ S.collapses_peaks_flatten_cis))).foldl
        (process_peak S cf ro) st ∧
    get_group_intensity S cf ro = get_group_intensity (filter_cis S) cf ro := by
  have hmem : p ∈ S.collapses_peaks_flatten_cis := by
    rw [hcis, get_center_peak_idxs, List.mem_filter]
    exact ⟨List.mem_range.mpr hp, by simpa using hnear⟩
  refine ⟨process_peak_skip S cf ro st p hmem, foldl_skip_cis S cf ro famlist st, ?_⟩
  have hpl : process_label (filter_cis S) cf ro = process_label S cf ro := by
    funext acc ul
    exact process_label_filter_cis S cf ro acc ul
  have hul : (filter_cis S).cluster_labels_unique = S.cluster_labels_unique := rfl
  rw [get_group_intensity, get_group_intensity, hpl, hul]

/-- C10 witness: flattened positions `[5, 10]` with midpoint `5` and
tolerance `3` record peak `0` as a center peak; it is skipped and the
filtered computation coincides. -/
theorem c10_witness :
    (c10_S.collapses_peaks_flatten_cis = get_center_peak_idxs [(5 : ℚ), 10] 5 3 ∧
      (0 : ℕ) < ([(5 : ℚ), 10] : List ℚ).length ∧
      |([(5 : ℚ), 10] : List ℚ).getD 0 0 - 5| < 3) ∧
    (process_peak c10_S (fun _ => none) (fun _ => true) ⟨fun _ _ => false, [], []⟩ 0 =
        ⟨fun _ _ => false, [], []⟩ ∧
      ([0, 1] : List ℕ).foldl
          (process_peak c10_S (fun _ => none) (fun _ => true)) ⟨fun _ _ => false, [], []⟩ =
        (([0, 1] : List ℕ).filter
            (fun q => decide (q ∉ c10_S.collapses_peaks_flatten_cis))).foldl
          (process_peak c10_S (fun _ => none) (fun _ => true)) ⟨fun _ _ => false, [], []⟩ ∧
      get_group_intensity c10_S (fun _ => none) (fun _ => true) =
        get_group_intensity (filter_cis c10_S) (fun _ => none) (fun _ => true)) :=
  ⟨⟨by decide!, by decide!, by decide!⟩,
    c10_center_peaks_never_contribute c10_S (fun _ => none) (fun _ => true)
      ⟨fun _ _ => false, [], []⟩ [0, 1] [(5 : ℚ), 10] 5 3 0
      (by decide!) (by decide!) (by decide!)⟩
